import Mathlib

/-
  Verification of the per-strategy workspace cache and live-session
  synchronizer of the trading workspace frontend.

  The definitions below are a shallow embedding of the TypeScript source:
  - `HomePage` in the main page component (src/unnamed/part_001, first
    document): the four per-strategy cache buckets, the active-strategy
    selector, save / rename / delete / backtest / tuning / paper-session
    operations and the paper polling effect;
  - `Sidebar` (src/frontend/components/Sidebar.tsx, first document):
    favorites, their reconciliation effect and `commitRename`.

  JavaScript objects used as string-keyed maps are embedded as association
  lists (`RecordMap`); the spread-update `{...prev, [k]: v}` is `set`,
  `delete out[k]` is `del`.  React state hooks become fields of explicit
  state structures; async operations are split at their `await` points into
  events of small step machines, so that interleavings (strategy switches
  while a call is in flight) are expressible.
-/

namespace Trading

/-- Association-list embedding of a JS object used as a string-keyed map. -/
abbrev RecordMap (α : Type) : Type := List (String × α)

namespace RecordMap

variable {α : Type}

/-- Key lookup: `m[k]`, `undefined` becomes `none`. -/
def get (m : RecordMap α) (k : String) : Option α :=
  match m with
  | [] => none
  | (k', v) :: rest => if k' = k then some v else get rest k

/-- The update `{...m, [k]: v}`. -/
def set (m : RecordMap α) (k : String) (v : α) : RecordMap α :=
  match m with
  | [] => [(k, v)]
  | (k', v') :: rest => if k' = k then (k, v) :: rest else (k', v') :: set rest k v

/-- The statement `delete m[k]`. -/
def del (m : RecordMap α) (k : String) : RecordMap α :=
  match m with
  | [] => []
  | (k', v') :: rest => if k' = k then del rest k else (k', v') :: del rest k

theorem get_set_self (m : RecordMap α) (k : String) (v : α) :
    (m.set k v).get k = some v := by
  induction m with
  | nil => simp [get, set]
  | cons hd tl ih =>
    obtain ⟨k', v'⟩ := hd
    by_cases h : k' = k <;> simp [get, set, h, ih]

theorem get_set_ne (m : RecordMap α) {k k' : String} {v : α} (h : k' ≠ k) :
    (m.set k v).get k' = m.get k' := by
  induction m with
  | nil => simp [get, set, Ne.symm h]
  | cons hd tl ih =>
    obtain ⟨k₀, v₀⟩ := hd
    by_cases h0 : k₀ = k
    · subst h0
      simp [get, set, Ne.symm h]
    · simp [get, set, h0, ih]

theorem get_del_self (m : RecordMap α) (k : String) :
    (m.del k).get k = none := by
  induction m with
  | nil => simp [get, del]
  | cons hd tl ih =>
    obtain ⟨k', v'⟩ := hd
    by_cases h : k' = k <;> simp [get, del, h, ih]

theorem get_del_ne (m : RecordMap α) {k k' : String} (h : k' ≠ k) :
    (m.del k).get k' = m.get k' := by
  induction m with
  | nil => simp [get, del]
  | cons hd tl ih =>
    obtain ⟨k₀, v₀⟩ := hd
    by_cases h0 : k₀ = k
    · subst h0
      simp [get, del, Ne.symm h, ih]
    · simp [get, del, h0, ih]

/-- The rename idiom of `renameStrategy`:
`if (!(old in prev)) return prev; const out = {...prev, [new]: prev[old]}; delete out[old]; return out;` -/
def renameKey (m : RecordMap α) (oldK newK : String) : RecordMap α :=
  match m.get oldK with
  | none => m
  | some v => (m.set newK v).del oldK

theorem renameKey_of_absent (m : RecordMap α) {oldK : String} (newK : String)
    (h : m.get oldK = none) : m.renameKey oldK newK = m := by
  simp [renameKey, h]

theorem renameKey_get_old (m : RecordMap α) (oldK newK : String) :
    (m.renameKey oldK newK).get oldK = none := by
  cases h : m.get oldK with
  | none => simp [renameKey, h]
  | some v => simp [renameKey, h, get_del_self]

theorem renameKey_get_new (m : RecordMap α) {oldK newK : String} {v : α}
    (hne : oldK ≠ newK) (h : m.get oldK = some v) :
    (m.renameKey oldK newK).get newK = some v := by
  rw [renameKey, h, get_del_ne _ (Ne.symm hne), get_set_self]

theorem renameKey_get_other (m : RecordMap α) {oldK newK k : String}
    (h1 : k ≠ oldK) (h2 : k ≠ newK) :
    (m.renameKey oldK newK).get k = m.get k := by
  cases h : m.get oldK with
  | none => simp [renameKey, h]
  | some v => rw [renameKey, h, get_del_ne _ h1, get_set_ne _ h2]

end RecordMap

/-- Abstract backtest result; the cache claims never inspect its payload,
only move whole values between buckets, so two identifying fields stand for
the full record shape of the source's `BacktestResult`. -/
structure BacktestResult where
  run_id : String
  final_value : Int
  deriving DecidableEq

/-- The source's `MlRange = { min: number; max: number; type: "int" | "float" }`
(`ty` embeds the `type` field). -/
structure MlRange where
  min : Int
  max : Int
  ty : String
  deriving DecidableEq

/-- The source's `StrategyParamSpec` (`ty` embeds `type`, `pdefault` embeds
`default`). -/
structure StrategyParamSpec where
  name : String
  ty : String
  pdefault : Int
  suggested_min : Int
  suggested_max : Int
  deriving DecidableEq

/-- The source's `MlSessionCache`: one tuning-cache bucket entry. -/
structure MlSessionCache where
  resultText : String
  bestRun : Option BacktestResult
  error : String
  ranges : RecordMap MlRange
  deriving DecidableEq

/-- The source's `PaperStateResponse`, reduced to the session id plus the
snapshot; the claims treat the payload as opaque. -/
structure PaperStateResponse where
  session_id : String
  snapshot : BacktestResult
  deriving DecidableEq

/-- The source's `PaperSessionCache`: one paper-session bucket entry. -/
structure PaperSessionCache where
  sessionId : String
  error : String
  state : Option PaperStateResponse
  deriving DecidableEq

/-- The source's `Strategy` registry row (Sidebar.tsx). -/
structure Strategy where
  name : String
  path : String
  updated_at : String
  deriving DecidableEq

/-- The source's `WorkspaceView`. -/
inductive View
  | coding
  | backtesting
  | ml
  | paper
  deriving DecidableEq

/-- The `useState` hooks of `HomePage` that the claims touch, plus the
Sidebar's `favorites` state (the two components share one browser session). -/
structure Workspace where
  view : View
  strategies : List Strategy
  selectedPath : Option String
  code : String
  codeByStrategy : RecordMap String
  result : Option BacktestResult
  backtestByStrategy : RecordMap BacktestResult
  paramSpecsByStrategy : RecordMap (List StrategyParamSpec)
  mlByStrategy : RecordMap MlSessionCache
  mlBestResult : Option BacktestResult
  optuna : String
  mlError : String
  mlLoading : Bool
  mlParamSpecs : List StrategyParamSpec
  mlRanges : RecordMap MlRange
  paperSession : String
  paperError : String
  paperState : Option PaperStateResponse
  paperByStrategy : RecordMap PaperSessionCache
  favorites : List String
  deriving DecidableEq

/-- A blank workspace, as after mount and before any load. -/
def Workspace.empty : Workspace where
  view := .coding
  strategies := []
  selectedPath := none
  code := ""
  codeByStrategy := []
  result := none
  backtestByStrategy := []
  paramSpecsByStrategy := []
  mlByStrategy := []
  mlBestResult := none
  optuna := ""
  mlError := ""
  mlLoading := false
  mlParamSpecs := []
  mlRanges := []
  paperSession := ""
  paperError := ""
  paperState := none
  paperByStrategy := []
  favorites := []

/-- The `params.reduce` expression shared by the hydration effect and
`saveStrategy`: build the ranges map from each param's suggested bounds. -/
def defaultRanges (params : List StrategyParamSpec) : RecordMap MlRange :=
  params.foldl (fun acc p => acc.set p.name ⟨p.suggested_min, p.suggested_max, p.ty⟩) []

/-- The `reloadStrategies` continuation after its fetch resolves with `files`:
replace the registry; clear the selection when the registry is empty, keep it
when still present, otherwise fall back to the first entry. -/
def reloadStrategies (s : Workspace) (files : List Strategy) : Workspace :=
  match files with
  | [] => { s with strategies := [], selectedPath := none }
  | f :: rest =>
    let keep := match s.selectedPath with
      | none => false
      | some sel => (f :: rest).any (fun g => g.path = sel)
    { s with strategies := f :: rest,
             selectedPath := if keep then s.selectedPath else some f.path }

/-- The success path of `saveStrategy`, with the parameter-spec fetch that the
source awaits right after the save ack supplied as `params`: write-through the
code cache, refresh the param specs, reset the visible and cached tuning
ranges from the fresh suggested bounds, reset the tuning entry, and drop the
strategy's backtest entry. -/
def saveStrategy (s : Workspace) (params : List StrategyParamSpec) : Workspace :=
  match s.selectedPath with
  | none => s
  | some sel =>
    let resetRanges := defaultRanges params
    { s with
      codeByStrategy := s.codeByStrategy.set sel s.code,
      mlParamSpecs := params,
      paramSpecsByStrategy := s.paramSpecsByStrategy.set sel params,
      mlRanges := resetRanges,
      mlByStrategy := s.mlByStrategy.set sel ⟨"", none, "", resetRanges⟩,
      backtestByStrategy := s.backtestByStrategy.del sel }

/-- The cache propagation of `renameStrategy` after the remote rename
succeeds: move the entry from `oldPath` to `newPath` in all five keyed maps
(the four buckets of the spec plus the param-spec map). -/
def renameStrategy (s : Workspace) (oldPath newPath : String) : Workspace :=
  { s with
    codeByStrategy := s.codeByStrategy.renameKey oldPath newPath,
    paramSpecsByStrategy := s.paramSpecsByStrategy.renameKey oldPath newPath,
    backtestByStrategy := s.backtestByStrategy.renameKey oldPath newPath,
    mlByStrategy := s.mlByStrategy.renameKey oldPath newPath,
    paperByStrategy := s.paperByStrategy.renameKey oldPath newPath }

/-- The Sidebar `commitRename` steps after `await onRename` returns: reselect
under the new path when the renamed strategy was active, and rewrite a
favorite entry in place. -/
def commitRenameFavorites (s : Workspace) (oldPath newPath : String) : Workspace :=
  let s1 := if s.selectedPath = some oldPath then { s with selectedPath := some newPath } else s
  if oldPath ∈ s1.favorites then
    { s1 with favorites := s1.favorites.map (fun p => if p = oldPath then newPath else p) }
  else s1

/-- A successful rename as the user sees it: `renameStrategy`'s bucket moves
followed by `commitRename`'s selection and favorites rewrite. -/
def commitRename (s : Workspace) (oldPath newPath : String) : Workspace :=
  commitRenameFavorites (renameStrategy s oldPath newPath) oldPath newPath

/-- The cache eviction of `deleteStrategy` after the remote delete succeeds:
drop `path` from all five keyed maps. -/
def deleteStrategyCaches (s : Workspace) (path : String) : Workspace :=
  { s with
    codeByStrategy := s.codeByStrategy.del path,
    paramSpecsByStrategy := s.paramSpecsByStrategy.del path,
    backtestByStrategy := s.backtestByStrategy.del path,
    mlByStrategy := s.mlByStrategy.del path,
    paperByStrategy := s.paperByStrategy.del path }

/-- The Sidebar reconciliation effect: with a non-empty registry, keep only
favorites whose path is a registry member; with an empty registry the effect
returns before filtering. -/
def reconcileFavorites (strategies : List Strategy) (favorites : List String) : List String :=
  if strategies.isEmpty then favorites
  else favorites.filter (fun p => strategies.any (fun st => st.path = p))

/-- A completed delete as the user sees it: bucket eviction, the registry
reload that `deleteStrategy` awaits (resolving with `files`), then the
favorites reconciliation pass triggered by the registry change. -/
def deleteStrategyFlow (s : Workspace) (path : String) (files : List Strategy) : Workspace :=
  let s1 := reloadStrategies (deleteStrategyCaches s path) files
  { s1 with favorites := reconcileFavorites s1.strategies s1.favorites }

/-
  Event machine for the code part of the hydration effect and the editor.

  The hydration effect runs once per change of `selectedPath` (a reselect of
  the same value does not re-run it).  Each run is one generation: its
  cleanup flips the previous run's `active` flag, so a code fetch issued at
  generation `g` commits its result only while the machine is still at
  generation `g`.  The editor `onChange` always updates the visible buffer
  and, when a strategy is selected, writes through to `codeByStrategy`.
-/

/-- Events of the code-cache machine: user selection, editor input, and the
completion of a code fetch that was issued at generation `gen` for `path`. -/
inductive CodeEvent
  | select (path : String)
  | edit (text : String)
  | fetchResolve (gen : Nat) (path : String) (content : String)
  deriving DecidableEq

/-- State of the code-cache machine: the active path, the hydration-effect
generation, the visible editor buffer, the `codeByStrategy` bucket, and the
code fetches still in flight (generation at issue, target path). -/
structure CodeSync where
  selected : Option String
  gen : Nat
  code : String
  cache : RecordMap String
  pending : List (Nat × String)
  deriving DecidableEq

namespace CodeSync

/-- One step of the code-cache machine; each branch mirrors the source:
select re-runs the hydration effect (cache hit shows the cached text, miss
issues a fetch), edit writes through, and a resolving fetch applies its
result only when its generation is still current (`active` flag). -/
def step (s : CodeSync) : CodeEvent → CodeSync
  | .select p =>
    if s.selected = some p then s
    else
      match s.cache.get p with
      | some c => { s with selected := some p, gen := s.gen + 1, code := c }
      | none => { s with selected := some p, gen := s.gen + 1,
                         pending := (s.gen + 1, p) :: s.pending }
  | .edit t =>
    match s.selected with
    | some p => { s with code := t, cache := s.cache.set p t }
    | none => { s with code := t }
  | .fetchResolve g p c =>
    if (g, p) ∈ s.pending then
      if g = s.gen then
        { s with code := c, cache := s.cache.set p c, pending := s.pending.erase (g, p) }
      else { s with pending := s.pending.erase (g, p) }
    else s

/-- Initial machine state: nothing selected, empty buffer and cache. -/
def init : CodeSync := ⟨none, 0, "", [], []⟩

/-- Run the machine from `s` through a list of events. -/
def runFrom (s : CodeSync) (es : List CodeEvent) : CodeSync := es.foldl step s

/-- Run the machine from the initial state. -/
def run (es : List CodeEvent) : CodeSync := runFrom init es

/-- The value (if any) that event `e`, taken in state `s`, commits for
strategy `x`: an edit while `x` is selected, or a still-active fetch
completion for `x`. -/
def commitOf (s : CodeSync) (e : CodeEvent) (x : String) : Option String :=
  match e with
  | .select _ => none
  | .edit t => if s.selected = some x then some t else none
  | .fetchResolve g p c =>
    if (g, p) ∈ s.pending ∧ g = s.gen ∧ p = x then some c else none

/-- The last value committed for `x` along `es`, when run from `s`. -/
def lastCommittedFrom (s : CodeSync) (es : List CodeEvent) (x : String) : Option String :=
  match es with
  | [] => none
  | e :: rest => (lastCommittedFrom (s.step e) rest x).orElse (fun _ => commitOf s e x)

/-- The last value committed for `x` along `es` from the initial state. -/
def lastCommitted (es : List CodeEvent) (x : String) : Option String :=
  lastCommittedFrom init es x

theorem step_cache_get (s : CodeSync) (e : CodeEvent) (x : String) :
    (s.step e).cache.get x = (commitOf s e x).orElse (fun _ => s.cache.get x) := by
  cases e with
  | select p =>
    by_cases hsel : s.selected = some p
    · simp [step, commitOf, hsel]
    · cases hc : s.cache.get p <;> simp [step, commitOf, hsel, hc]
  | edit t =>
    cases hsel : s.selected with
    | none => simp [step, commitOf, hsel]
    | some p =>
      by_cases hx : p = x
      · subst hx
        simp [step, commitOf, hsel, RecordMap.get_set_self]
      · simp [step, commitOf, hsel, hx, RecordMap.get_set_ne _ (Ne.symm hx)]
  | fetchResolve g p c =>
    by_cases hmem : (g, p) ∈ s.pending
    · by_cases hg : g = s.gen
      · subst hg
        by_cases hx : p = x
        · subst hx
          simp [step, commitOf, hmem, RecordMap.get_set_self]
        · simp [step, commitOf, hmem, hx, RecordMap.get_set_ne _ (Ne.symm hx)]
      · simp [step, commitOf, hmem, hg]
    · simp [step, commitOf, hmem]

theorem runFrom_cache_get (s : CodeSync) (es : List CodeEvent) (x : String) :
    (runFrom s es).cache.get x
      = (lastCommittedFrom s es x).orElse (fun _ => s.cache.get x) := by
  induction es generalizing s with
  | nil => simp [runFrom, lastCommittedFrom]
  | cons e rest ih =>
    show (runFrom (s.step e) rest).cache.get x = _
    rw [ih]
    cases h : lastCommittedFrom (s.step e) rest x with
    | some v => simp [lastCommittedFrom, h, Option.orElse]
    | none => simp [lastCommittedFrom, h, Option.orElse, step_cache_get]

/-- Machine invariant: pending fetch generations never exceed the current
generation; a pending fetch at the current generation targets the selected
path; and while `x` is selected with a cached value, the visible buffer shows
that cached value. -/
def Inv (s : CodeSync) : Prop :=
  (∀ g p, (g, p) ∈ s.pending → g ≤ s.gen ∧ (g = s.gen → s.selected = some p)) ∧
  (∀ x v, s.selected = some x → s.cache.get x = some v → s.code = v)

theorem inv_init : Inv init := by
  constructor
  · intro g p h
    simp [init] at h
  · intro x v h
    simp [init] at h

theorem inv_step (s : CodeSync) (e : CodeEvent) (h : Inv s) : Inv (s.step e) := by
  obtain ⟨hpend, hcode⟩ := h
  cases e with
  | select p =>
    by_cases hsel : s.selected = some p
    · simpa [step, hsel] using ⟨hpend, hcode⟩
    · cases hc : s.cache.get p with
      | some c =>
        have hstep : s.step (.select p)
            = { s with selected := some p, gen := s.gen + 1, code := c } := by
          simp [step, hsel, hc]
        refine ⟨?_, ?_⟩
        · intro g q hq
          rw [hstep] at hq ⊢
          dsimp only at hq ⊢
          have hle := (hpend g q hq).1
          exact ⟨Nat.le_succ_of_le hle, fun hg => absurd hg (by omega)⟩
        · intro x v hx hv
          rw [hstep] at hx hv ⊢
          dsimp only at hx hv ⊢
          obtain rfl : p = x := Option.some_injective _ hx
          rw [hc] at hv
          exact Option.some_injective _ hv
      | none =>
        have hstep : s.step (.select p)
            = { s with selected := some p, gen := s.gen + 1,
                       pending := (s.gen + 1, p) :: s.pending } := by
          simp [step, hsel, hc]
        refine ⟨?_, ?_⟩
        · intro g q hq
          rw [hstep] at hq ⊢
          dsimp only at hq ⊢
          rcases List.mem_cons.mp hq with hq | hq
          · simp only [Prod.mk.injEq] at hq
            obtain ⟨rfl, rfl⟩ := hq
            exact ⟨Nat.le_refl _, fun _ => rfl⟩
          · have hle := (hpend g q hq).1
            exact ⟨Nat.le_succ_of_le hle, fun hg => absurd hg (by omega)⟩
        · intro x v hx hv
          rw [hstep] at hx hv ⊢
          dsimp only at hx hv ⊢
          obtain rfl : p = x := Option.some_injective _ hx
          rw [hc] at hv
          exact absurd hv (by simp)
  | edit t =>
    cases hsel : s.selected with
    | none =>
      have hstep : s.step (.edit t) = { s with code := t } := by simp [step, hsel]
      refine ⟨?_, ?_⟩
      · intro g q hq
        rw [hstep] at hq ⊢
        dsimp only at hq ⊢
        exact ⟨(hpend g q hq).1, fun hg => (hpend g q hq).2 hg⟩
      · intro x v hx hv
        rw [hstep] at hx
        dsimp only at hx
        rw [hsel] at hx
        exact absurd hx (by simp)
    | some p =>
      have hstep : s.step (.edit t)
          = { s with code := t, cache := s.cache.set p t } := by simp [step, hsel]
      refine ⟨?_, ?_⟩
      · intro g q hq
        rw [hstep] at hq ⊢
        dsimp only at hq ⊢
        exact ⟨(hpend g q hq).1, fun hg => (hpend g q hq).2 hg⟩
      · intro x v hx hv
        rw [hstep] at hx hv ⊢
        dsimp only at hx hv ⊢
        rw [hsel] at hx
        obtain rfl : p = x := Option.some_injective _ hx
        rw [RecordMap.get_set_self] at hv
        exact Option.some_injective _ hv
  | fetchResolve g p c =>
    by_cases hmem : (g, p) ∈ s.pending
    · by_cases hg : g = s.gen
      · subst hg
        have hselp : s.selected = some p := (hpend _ p hmem).2 rfl
        have hstep : s.step (.fetchResolve s.gen p c)
            = { s with code := c, cache := s.cache.set p c,
                       pending := s.pending.erase (s.gen, p) } := by
          simp [step, hmem]
        refine ⟨?_, ?_⟩
        · intro g' q hq
          rw [hstep] at hq ⊢
          dsimp only at hq ⊢
          have hq' : (g', q) ∈ s.pending := List.mem_of_mem_erase hq
          exact ⟨(hpend g' q hq').1, fun hg' => (hpend g' q hq').2 hg'⟩
        · intro x v hx hv
          rw [hstep] at hx hv ⊢
          dsimp only at hx hv ⊢
          rw [hselp] at hx
          obtain rfl : p = x := Option.some_injective _ hx
          rw [RecordMap.get_set_self] at hv
          exact Option.some_injective _ hv
      · have hstep : s.step (.fetchResolve g p c)
            = { s with pending := s.pending.erase (g, p) } := by
          rw [step]
          rw [if_pos hmem, if_neg hg]
        refine ⟨?_, ?_⟩
        · intro g' q hq
          rw [hstep] at hq ⊢
          dsimp only at hq ⊢
          have hq' : (g', q) ∈ s.pending := List.mem_of_mem_erase hq
          exact ⟨(hpend g' q hq').1, fun hg' => (hpend g' q hq').2 hg'⟩
        · intro x v hx hv
          rw [hstep] at hx hv ⊢
          dsimp only at hx hv ⊢
          exact hcode x v hx hv
    · simpa [step, hmem] using ⟨hpend, hcode⟩

theorem inv_runFrom (s : CodeSync) (es : List CodeEvent) (h : Inv s) :
    Inv (runFrom s es) := by
  induction es generalizing s with
  | nil => exact h
  | cons e rest ih => exact ih (s.step e) (inv_step s e h)

theorem inv_run (es : List CodeEvent) : Inv (run es) :=
  inv_runFrom init es inv_init

theorem selected_after_select (s : CodeSync) (p : String) :
    (s.step (.select p)).selected = some p := by
  by_cases hsel : s.selected = some p
  · simp [step, hsel]
  · cases hc : s.cache.get p <;> simp [step, hsel, hc]

end CodeSync

/-
  Event machine for the paper-session polling effect.

  The effect has dependency list `[view, paperSession]`: it re-runs exactly
  when one of the two changes, clearing the previous interval and, when the
  paper view is shown with a non-empty session id, issuing one immediate
  refresh and installing a new interval.  `refreshPaperState` is a closure
  over the render in which the effect ran, so every call it makes carries
  the `paperSession`, `selectedPath` and `paperState` captured then; its
  completion applies its result with no activeness check.
-/

/-- The values of the render closure that `refreshPaperState` was created
in: the session id polled, the selected path the write goes under, and the
visible paper state (used by the failure branch). -/
structure RefreshClosure where
  sessionId : String
  selPath : String
  capturedState : Option PaperStateResponse
  deriving DecidableEq

/-- State of the paper-polling machine: the paper-related `HomePage` state,
the currently installed effect closure (`activation`, none when the effect's
guard failed), the refresh calls in flight, and the ordered log of issued
refresh calls (each recorded by its session id). -/
structure PaperSync where
  view : View
  selected : Option String
  paperSession : String
  paperError : String
  paperState : Option PaperStateResponse
  paperByStrategy : RecordMap PaperSessionCache
  activation : Option RefreshClosure
  inflight : List RefreshClosure
  callLog : List String
  deriving DecidableEq

namespace PaperSync

/-- The guard of the polling effect: poll only in the paper view with a
non-empty session id (and a selected strategy, without which
`refreshPaperState` returns at once). -/
def effectFor (v : View) (selected : Option String) (session : String)
    (st : Option PaperStateResponse) : Option RefreshClosure :=
  if v = View.paper ∧ session ≠ "" then
    match selected with
    | some p => some ⟨session, p, st⟩
    | none => none
  else none

/-- Re-run of the polling effect after one of its dependencies changed:
clear the old interval, and when the guard holds install the new closure and
issue the immediate first refresh. -/
def applyEffect (s : PaperSync) : PaperSync :=
  match effectFor s.view s.selected s.paperSession s.paperState with
  | none => { s with activation := none }
  | some c =>
    { s with activation := some c,
             callLog := s.callLog ++ [c.sessionId],
             inflight := c :: s.inflight }

/-- Events of the paper-polling machine: view switch, strategy selection
(its paper hydration), a successful `startPaper`, an interval tick, and the
success or failure completion of an in-flight refresh. -/
inductive PaperEvent
  | setView (v : View)
  | select (p : String)
  | startPaperOk (sid : String)
  | timerFire
  | refreshOk (c : RefreshClosure) (resp : PaperStateResponse)
  | refreshErr (c : RefreshClosure) (msg : String)
  deriving DecidableEq

/-- One step of the paper-polling machine, mirroring the source: hydration
restores the selected strategy's cached session, the effect re-runs when
`view` or `paperSession` changed value, and a completing refresh applies its
result unconditionally, keyed by its closure's captured values. -/
def step (s : PaperSync) : PaperEvent → PaperSync
  | .setView v =>
    if s.view = v then s
    else applyEffect { s with view := v }
  | .select p =>
    if s.selected = some p then s
    else
      let entry := s.paperByStrategy.get p
      let newSession := (entry.map (·.sessionId)).getD ""
      let s1 : PaperSync := { s with
        selected := some p,
        paperSession := newSession,
        paperError := (entry.map (·.error)).getD "",
        paperState := entry.bind (·.state) }
      if newSession = s.paperSession then s1 else applyEffect s1
  | .startPaperOk sid =>
    match s.selected with
    | none => s
    | some p =>
      let s1 : PaperSync := { s with
        paperError := "", paperState := none, paperSession := sid,
        paperByStrategy := s.paperByStrategy.set p ⟨sid, "", none⟩ }
      if sid = s.paperSession then s1 else applyEffect s1
  | .timerFire =>
    match s.activation with
    | none => s
    | some c =>
      { s with callLog := s.callLog ++ [c.sessionId], inflight := c :: s.inflight }
  | .refreshOk c resp =>
    if c ∈ s.inflight then
      { s with inflight := s.inflight.erase c,
               paperState := some resp, paperError := "",
               paperByStrategy :=
                 s.paperByStrategy.set c.selPath ⟨c.sessionId, "", some resp⟩ }
    else s
  | .refreshErr c msg =>
    if c ∈ s.inflight then
      { s with inflight := s.inflight.erase c,
               paperError := msg,
               paperByStrategy :=
                 s.paperByStrategy.set c.selPath ⟨c.sessionId, msg, c.capturedState⟩ }
    else s

/-- Initial paper-machine state: coding view, nothing selected, no session. -/
def init : PaperSync := ⟨.coding, none, "", "", none, [], none, [], []⟩

/-- Run the paper machine from the initial state. -/
def run (es : List PaperEvent) : PaperSync := es.foldl step init

end PaperSync

/-
  Event machine for the tuning (`runOptimization`) flow, together with the
  hydration and save effects that touch the tuning state.  A flow captures
  the render constants of the closure that started it (`selectedPath`,
  `mlRanges`, `optuna`, `mlBestResult`); the second (best-params) backtest
  call is emitted in the continuation that receives the first call's
  response; both completion paths write the tuning bucket under the captured
  origin path.
-/

/-- Stage of a tuning flow: waiting for the optimize response, or waiting
for the dependent best-params backtest (carrying the rendered result text
and the best parameter set of the first response). -/
inductive TuneStage
  | awaitingOpt
  | awaitingBt (resultText : String) (bestParams : RecordMap Int)
  deriving DecidableEq

/-- The closure constants captured when `runOptimization` starts, plus the
flow stage. -/
structure TuneFlow where
  origin : String
  ranges : RecordMap MlRange
  capturedOptuna : String
  capturedBest : Option BacktestResult
  stage : TuneStage
  deriving DecidableEq

/-- A remote call issued by the tuning flow. -/
inductive TuneCall
  | optimize (origin : String) (ranges : RecordMap MlRange)
  | backtest (origin : String) (params : RecordMap Int)
  deriving DecidableEq

/-- State of the tuning machine: the workspace, the flow in flight (the UI
allows at most one), and the ordered log of issued remote calls. -/
structure TuneSys where
  w : Workspace
  flow : Option TuneFlow
  callLog : List TuneCall
  deriving DecidableEq

/-- The local-validation error text of `runOptimization`. -/
def emptyRangesMsg : String := "No numeric params found in strategy `params`."

/-- Stands for `JSON.stringify` of the optimize response; the claims treat
the rendered text as opaque, only its identity matters. -/
def renderResult (bv : Int) (bp : RecordMap Int) : String :=
  toString bv ++ "|"
    ++ String.intercalate "," (bp.map (fun kv => kv.1 ++ "=" ++ toString kv.2))

/-- Events of the tuning machine: strategy selection (its tuning
hydration), a successful save (with the freshly fetched param specs), the
user starting a run, and the completions of the two remote calls. -/
inductive TuneEvent
  | select (p : String)
  | save (params : List StrategyParamSpec)
  | initiate
  | optOk (best_value : Int) (best_params : RecordMap Int)
  | optErr (msg : String)
  | btOk (r : BacktestResult)
  | btErr (msg : String)
  deriving DecidableEq

namespace TuneSys

/-- One step of the tuning machine.  `select` is the tuning part of the
hydration effect (including the cached-param-spec branch; the asynchronous
param fetch of a spec-cache miss changes no tuning state synchronously and
is left out).  `initiate` is `runOptimization` up to its first `await`: with
an empty ranges map it records the local error on the active entry and
issues no call; otherwise it captures the closure constants and issues the
optimize call.  The completion events are the continuations after each
`await`, writing under the captured origin. -/
def step (s : TuneSys) : TuneEvent → TuneSys
  | .select p =>
    if s.w.selectedPath = some p then s
    else
      let mlCached := s.w.mlByStrategy.get p
      let w1 := { s.w with
        selectedPath := some p,
        mlBestResult := mlCached.bind (·.bestRun),
        optuna := (mlCached.map (·.resultText)).getD "",
        mlError := (mlCached.map (·.error)).getD "",
        mlRanges := (mlCached.map (·.ranges)).getD [] }
      let w2 := match s.w.paramSpecsByStrategy.get p with
        | some specs =>
          if mlCached.isNone then
            { w1 with mlParamSpecs := specs, mlRanges := defaultRanges specs }
          else { w1 with mlParamSpecs := specs }
        | none => w1
      { s with w := w2 }
  | .save params => { s with w := saveStrategy s.w params }
  | .initiate =>
    match s.w.selectedPath with
    | none => s
    | some sel =>
      if s.w.mlRanges.isEmpty then
        { s with w := { s.w with
            mlError := emptyRangesMsg,
            mlByStrategy := s.w.mlByStrategy.set sel
              ⟨s.w.optuna, s.w.mlBestResult, emptyRangesMsg, s.w.mlRanges⟩ } }
      else
        { s with
          w := { s.w with mlLoading := true, mlError := "", mlBestResult := none },
          flow := some ⟨sel, s.w.mlRanges, s.w.optuna, s.w.mlBestResult, .awaitingOpt⟩,
          callLog := s.callLog ++ [.optimize sel s.w.mlRanges] }
  | .optOk bv bp =>
    match s.flow with
    | some f =>
      match f.stage with
      | .awaitingOpt =>
        { s with
          w := { s.w with optuna := renderResult bv bp },
          flow := some { f with stage := .awaitingBt (renderResult bv bp) bp },
          callLog := s.callLog ++ [.backtest f.origin bp] }
      | .awaitingBt _ _ => s
    | none => s
  | .optErr msg =>
    match s.flow with
    | some f =>
      match f.stage with
      | .awaitingOpt =>
        let w' := { s.w with
          mlError := msg,
          mlLoading := false,
          mlByStrategy := s.w.mlByStrategy.set f.origin
            ⟨f.capturedOptuna, f.capturedBest, msg, f.ranges⟩ }
        { s with w := w', flow := none }
      | .awaitingBt _ _ => s
    | none => s
  | .btOk r =>
    match s.flow with
    | some f =>
      match f.stage with
      | .awaitingBt resultText _ =>
        let w' := { s.w with
          mlBestResult := some r,
          mlLoading := false,
          mlByStrategy := s.w.mlByStrategy.set f.origin
            ⟨resultText, some r, "", f.ranges⟩ }
        { s with w := w', flow := none }
      | .awaitingOpt => s
    | none => s
  | .btErr msg =>
    match s.flow with
    | some f =>
      match f.stage with
      | .awaitingBt _ _ =>
        let w' := { s.w with
          mlError := msg,
          mlLoading := false,
          mlByStrategy := s.w.mlByStrategy.set f.origin
            ⟨f.capturedOptuna, f.capturedBest, msg, f.ranges⟩ }
        { s with w := w', flow := none }
      | .awaitingOpt => s
    | none => s

/-- Initial tuning-machine state: a blank workspace, no flow, no calls. -/
def init : TuneSys := ⟨Workspace.empty, none, []⟩

/-- Run the tuning machine from the initial state. -/
def run (es : List TuneEvent) : TuneSys := es.foldl step init

end TuneSys

/-
  Failure propagation of the workspace operations (§7 of the spec).

  Each operation below takes the outcome of its remote call(s) as input and
  returns the resulting workspace together with an `Option String`: the
  rejection that escapes the operation uncaught, `none` when every failure
  was caught inside.  The source wires `saveStrategy` (CodePane save
  button), `runBacktest` (BacktestingView run button) and
  `startPaper("local")` (PaperView local button) to their triggers with no
  catch anywhere, so their escaping rejection is an unhandled rejection;
  the Alpaca start button attaches `.catch` that stores the message in
  `paperError`; the Sidebar wraps rename and delete in try/catch and shows
  the message in an `alert` dialog (returned as the second component of
  those handlers), touching no cache state.
-/

/-- Outcome of one remote call. -/
inductive Outcome (α : Type)
  | ok (a : α)
  | err (msg : String)

/-- The `saveStrategy` operation of the page: the save POST, then (only on
its success) the param-spec fetch; neither is guarded by a try/catch, so a
failing outcome escapes as the returned message. -/
def saveStrategyOp (s : Workspace) (saveAck : Outcome Unit)
    (paramsFetch : Outcome (List StrategyParamSpec)) : Workspace × Option String :=
  match s.selectedPath with
  | none => (s, none)
  | some sel =>
    match saveAck with
    | .err m => (s, some m)
    | .ok _ =>
      let s1 := { s with codeByStrategy := s.codeByStrategy.set sel s.code }
      match paramsFetch with
      | .err m => (s1, some m)
      | .ok params => (saveStrategy s params, none)

/-- The `runBacktest` operation: one unguarded POST; on success the result
is shown and cached under the selected path. -/
def runBacktestOp (s : Workspace) (o : Outcome BacktestResult) : Workspace × Option String :=
  match s.selectedPath with
  | none => (s, none)
  | some sel =>
    match o with
    | .err m => (s, some m)
    | .ok r =>
      ({ s with result := some r,
                backtestByStrategy := s.backtestByStrategy.set sel r }, none)

/-- The `startPaper` operation: clears the visible error and state before
the unguarded POST; on success stores the new session id and resets the
strategy's paper cache entry. -/
def startPaperOp (s : Workspace) (o : Outcome String) : Workspace × Option String :=
  match s.selectedPath with
  | none => (s, none)
  | some sel =>
    let s1 := { s with paperError := "", paperState := none }
    match o with
    | .err m => (s1, some m)
    | .ok sid =>
      ({ s1 with paperSession := sid,
                 paperByStrategy := s1.paperByStrategy.set sel ⟨sid, "", none⟩ }, none)

/-- The Alpaca start button: `startPaper("alpaca").catch(...)` stores the
rejection in `paperError`, so nothing escapes. -/
def startPaperAlpacaHandler (s : Workspace) (o : Outcome String) : Workspace × Option String :=
  match startPaperOp s o with
  | (w, some m) => ({ w with paperError := m }, none)
  | (w, none) => (w, none)

/-- The Sidebar's rename path: `commitRename` awaits the remote rename in a
try/catch; a failure is surfaced as an `alert` dialog (the returned message)
and no cache is touched; on success the bucket moves and favorites rewrite
run.  Nothing escapes unhandled. -/
def renameStrategyHandler (s : Workspace) (oldPath newPath : String)
    (o : Outcome Unit) : Workspace × Option String :=
  match o with
  | .err m => (s, some m)
  | .ok _ => (commitRename s oldPath newPath, none)

/-- The Sidebar's delete path: the delete button awaits `onDelete` in a
try/catch; a failure is surfaced as an `alert` dialog (the returned message);
on success the eviction flow runs.  Nothing escapes unhandled. -/
def deleteStrategyHandler (s : Workspace) (path : String) (files : List Strategy)
    (o : Outcome Unit) : Workspace × Option String :=
  match o with
  | .err m => (s, some m)
  | .ok _ => (deleteStrategyFlow s path files, none)

/-- A rename moved one bucket correctly: a present entry ends up under the
new key only, an absent one leaves the bucket untouched. -/
def movedAt {α : Type} (before after : RecordMap α) (o n : String) : Prop :=
  (∀ v, before.get o = some v → after.get o = none ∧ after.get n = some v) ∧
  (before.get o = none → after = before)

theorem renameKey_movedAt {α : Type} (m : RecordMap α) {o n : String} (hne : o ≠ n) :
    movedAt m (m.renameKey o n) o n := by
  constructor
  · intro v hv
    exact ⟨RecordMap.renameKey_get_old m o n, RecordMap.renameKey_get_new m hne hv⟩
  · intro hv
    exact RecordMap.renameKey_of_absent m n hv

theorem commitRenameFavorites_buckets (s : Workspace) (o n : String) :
    (commitRenameFavorites s o n).codeByStrategy = s.codeByStrategy ∧
    (commitRenameFavorites s o n).backtestByStrategy = s.backtestByStrategy ∧
    (commitRenameFavorites s o n).mlByStrategy = s.mlByStrategy ∧
    (commitRenameFavorites s o n).paperByStrategy = s.paperByStrategy := by
  unfold commitRenameFavorites
  split <;> (dsimp only; split <;> exact ⟨rfl, rfl, rfl, rfl⟩)

theorem commitRenameFavorites_favorites (s : Workspace) (o n : String) :
    (commitRenameFavorites s o n).favorites
      = if o ∈ s.favorites then s.favorites.map (fun p => if p = o then n else p)
        else s.favorites := by
  unfold commitRenameFavorites
  split <;> (dsimp only; split <;> simp_all)

/-- C1: renaming a strategy id `o` to a distinct id `n` moves the entry of
every per-strategy cache bucket (code, backtest, tuning, paper-session) from
`o` to `n` (the entry under `n` afterwards is the pre-rename entry under
`o`, and `o` has no entry), leaves any bucket with no entry under `o`
unchanged, and transfers the favorite status: `o` is never a favorite
afterwards, `n` is one whenever `o` was, and the favorites are untouched
when `o` was not one. -/
theorem rename_moves_buckets_and_favorites (s : Workspace) (o n : String) (hne : o ≠ n) :
    movedAt s.codeByStrategy (commitRename s o n).codeByStrategy o n ∧
    movedAt s.backtestByStrategy (commitRename s o n).backtestByStrategy o n ∧
    movedAt s.mlByStrategy (commitRename s o n).mlByStrategy o n ∧
    movedAt s.paperByStrategy (commitRename s o n).paperByStrategy o n ∧
    o ∉ (commitRename s o n).favorites ∧
    (o ∈ s.favorites → n ∈ (commitRename s o n).favorites) ∧
    (o ∉ s.favorites → (commitRename s o n).favorites = s.favorites) := by
  have hw := commitRenameFavorites_buckets (renameStrategy s o n) o n
  have hfav := commitRenameFavorites_favorites (renameStrategy s o n) o n
  have hwf : (renameStrategy s o n).favorites = s.favorites := rfl
  rw [hwf] at hfav
  refine ⟨?_, ?_, ?_, ?_, ?_, ?_, ?_⟩
  · rw [show (commitRename s o n).codeByStrategy
        = s.codeByStrategy.renameKey o n from hw.1]
    exact renameKey_movedAt _ hne
  · rw [show (commitRename s o n).backtestByStrategy
        = s.backtestByStrategy.renameKey o n from hw.2.1]
    exact renameKey_movedAt _ hne
  · rw [show (commitRename s o n).mlByStrategy
        = s.mlByStrategy.renameKey o n from hw.2.2.1]
    exact renameKey_movedAt _ hne
  · rw [show (commitRename s o n).paperByStrategy
        = s.paperByStrategy.renameKey o n from hw.2.2.2]
    exact renameKey_movedAt _ hne
  · show o ∉ (commitRenameFavorites (renameStrategy s o n) o n).favorites
    rw [hfav]
    by_cases hin : o ∈ s.favorites
    · rw [if_pos hin]
      intro hmem
      rw [List.mem_map] at hmem
      obtain ⟨p, _, hp⟩ := hmem
      by_cases hpo : p = o
      · rw [if_pos hpo] at hp
        exact hne hp.symm
      · rw [if_neg hpo] at hp
        exact hpo hp
    · rw [if_neg hin]
      exact hin
  · intro hin
    show n ∈ (commitRenameFavorites (renameStrategy s o n) o n).favorites
    rw [hfav, if_pos hin, List.mem_map]
    exact ⟨o, hin, by rw [if_pos rfl]⟩
  · intro hin
    show (commitRenameFavorites (renameStrategy s o n) o n).favorites = s.favorites
    rw [hfav, if_neg hin]

/-- Concrete rename instance for the C1 theorem (the spec's scenario:
`a.py` renamed to `alpha.py` while favorited and holding cached entries). -/
def ws1 : Workspace := { Workspace.empty with
  selectedPath := some "a.py",
  codeByStrategy := [("a.py", "X=1")],
  backtestByStrategy := [("a.py", ⟨"run1", 7⟩)],
  mlByStrategy := [("a.py", ⟨"rt", none, "", []⟩)],
  favorites := ["a.py"] }

/-- Witness for C1 at a concrete workspace. -/
theorem rename_moves_buckets_and_favorites_witness :
    (commitRename ws1 "a.py" "alpha.py").codeByStrategy.get "a.py" = none ∧
    (commitRename ws1 "a.py" "alpha.py").codeByStrategy.get "alpha.py" = some "X=1" ∧
    (commitRename ws1 "a.py" "alpha.py").backtestByStrategy.get "alpha.py"
      = some ⟨"run1", 7⟩ ∧
    (commitRename ws1 "a.py" "alpha.py").paperByStrategy = ws1.paperByStrategy ∧
    "a.py" ∉ (commitRename ws1 "a.py" "alpha.py").favorites ∧
    "alpha.py" ∈ (commitRename ws1 "a.py" "alpha.py").favorites := by
  have h := rename_moves_buckets_and_favorites ws1 "a.py" "alpha.py" (by decide)
  exact ⟨(h.1.1 "X=1" rfl).1, (h.1.1 "X=1" rfl).2, (h.2.1.1 ⟨"run1", 7⟩ rfl).2,
    h.2.2.2.1.2 rfl, h.2.2.2.2.1, h.2.2.2.2.2.1 (by decide)⟩

/-- C3: a successful save of the selected strategy `x` (with `params` the
param specs fetched right after the save) removes `x`'s backtest cache
entry, resets both the visible tuning ranges and `x`'s cached tuning ranges
to the fresh suggested defaults, and leaves every bucket entry of every
other strategy id unchanged. -/
theorem save_invalidates_backtest_and_resets_ranges (s : Workspace) (x : String)
    (params : List StrategyParamSpec) (hsel : s.selectedPath = some x) :
    (saveStrategy s params).backtestByStrategy.get x = none ∧
    ((saveStrategy s params).mlByStrategy.get x).map MlSessionCache.ranges
      = some (defaultRanges params) ∧
    (saveStrategy s params).mlRanges = defaultRanges params ∧
    (∀ y, y ≠ x →
      (saveStrategy s params).codeByStrategy.get y = s.codeByStrategy.get y ∧
      (saveStrategy s params).backtestByStrategy.get y = s.backtestByStrategy.get y ∧
      (saveStrategy s params).mlByStrategy.get y = s.mlByStrategy.get y ∧
      (saveStrategy s params).paperByStrategy.get y = s.paperByStrategy.get y ∧
      (saveStrategy s params).paramSpecsByStrategy.get y
        = s.paramSpecsByStrategy.get y) := by
  have hs : saveStrategy s params = { s with
      codeByStrategy := s.codeByStrategy.set x s.code,
      mlParamSpecs := params,
      paramSpecsByStrategy := s.paramSpecsByStrategy.set x params,
      mlRanges := defaultRanges params,
      mlByStrategy := s.mlByStrategy.set x ⟨"", none, "", defaultRanges params⟩,
      backtestByStrategy := s.backtestByStrategy.del x } := by
    simp [saveStrategy, hsel]
  rw [hs]
  refine ⟨RecordMap.get_del_self _ _, ?_, rfl, ?_⟩
  · rw [RecordMap.get_set_self]
    rfl
  · intro y hy
    exact ⟨RecordMap.get_set_ne _ hy, RecordMap.get_del_ne _ hy,
      RecordMap.get_set_ne _ hy, rfl, RecordMap.get_set_ne _ hy⟩

/-- Concrete workspace for the C3 witness: `a.py` selected with edited code,
both `a.py` and `b.py` holding cached results. -/
def ws3 : Workspace := { Workspace.empty with
  selectedPath := some "a.py",
  code := "X=1",
  backtestByStrategy := [("a.py", ⟨"r1", 1⟩), ("b.py", ⟨"r2", 2⟩)],
  mlByStrategy := [("b.py", ⟨"keep", none, "", []⟩)],
  codeByStrategy := [("b.py", "Y=2")] }

/-- Witness for C3 at a concrete workspace and param-spec response. -/
theorem save_invalidates_backtest_and_resets_ranges_witness :
    (saveStrategy ws3 [⟨"fast", "int", 10, 5, 40⟩]).backtestByStrategy.get "a.py"
      = none ∧
    ((saveStrategy ws3 [⟨"fast", "int", 10, 5, 40⟩]).mlByStrategy.get "a.py").map
        MlSessionCache.ranges
      = some (defaultRanges [⟨"fast", "int", 10, 5, 40⟩]) ∧
    (saveStrategy ws3 [⟨"fast", "int", 10, 5, 40⟩]).backtestByStrategy.get "b.py"
      = ws3.backtestByStrategy.get "b.py" ∧
    (saveStrategy ws3 [⟨"fast", "int", 10, 5, 40⟩]).mlByStrategy.get "b.py"
      = ws3.mlByStrategy.get "b.py" := by
  have h := save_invalidates_backtest_and_resets_ranges ws3 "a.py"
    [⟨"fast", "int", 10, 5, 40⟩] rfl
  exact ⟨h.1, h.2.1, (h.2.2.2 "b.py" (by decide)).2.1, (h.2.2.2 "b.py" (by decide)).2.2.1⟩

/-- C7 counterexample: a reconciliation pass that runs while the registry is
empty keeps a favorite whose id is absent from the registry (the effect
returns before filtering when `strategies.length === 0`). -/
theorem reconcile_empty_registry_keeps_stale :
    reconcileFavorites [] ["a.py"] = ["a.py"] ∧
    ∀ st ∈ ([] : List Strategy), st.path ≠ "a.py" := by
  exact ⟨rfl, by simp⟩

/-- C7 (amended): after a reconciliation pass with a non-empty registry,
every remaining favorite id belongs to the registry; a pass with an empty
registry leaves the favorites unchanged. -/
theorem reconcile_prunes_when_registry_nonempty (strategies : List Strategy)
    (favorites : List String) (hne : strategies ≠ []) :
    (∀ p ∈ reconcileFavorites strategies favorites,
      ∃ st ∈ strategies, st.path = p) ∧
    reconcileFavorites [] favorites = favorites := by
  constructor
  · intro p hp
    have hempty : strategies.isEmpty = false := by
      cases strategies with
      | nil => exact absurd rfl hne
      | cons a l => rfl
    rw [reconcileFavorites, hempty] at hp
    simp only [Bool.false_eq_true, if_false, List.mem_filter] at hp
    obtain ⟨-, hany⟩ := hp
    rw [List.any_eq_true] at hany
    obtain ⟨st, hst, heq⟩ := hany
    exact ⟨st, hst, by simpa using heq⟩
  · rfl

/-- Witness for the amended C7 at a concrete registry and favorites set. -/
theorem reconcile_prunes_when_registry_nonempty_witness :
    (∀ p ∈ reconcileFavorites [⟨"b", "b.py", "t"⟩] ["a.py", "b.py"],
      ∃ st ∈ [(⟨"b", "b.py", "t"⟩ : Strategy)], st.path = p) ∧
    reconcileFavorites [] ["a.py", "b.py"] = ["a.py", "b.py"] := by
  exact reconcile_prunes_when_registry_nonempty [⟨"b", "b.py", "t"⟩]
    ["a.py", "b.py"] (by decide)

/-- Concrete workspace for C6: `a.py` is the only registry member, active
and favorited, with a cached code entry. -/
def ws6 : Workspace := { Workspace.empty with
  strategies := [⟨"a", "a.py", "t"⟩],
  selectedPath := some "a.py",
  favorites := ["a.py"],
  codeByStrategy := [("a.py", "X=1")] }

/-- C6 counterexample: deleting the last strategy leaves its favorite entry
behind — the registry reloads empty, the reconciliation pass returns before
filtering, and nothing else removes the favorite — although every cache
bucket is cleared and the active id does become null. -/
theorem delete_last_strategy_keeps_stale_favorite :
    (deleteStrategyFlow ws6 "a.py" []).favorites = ["a.py"] ∧
    (deleteStrategyFlow ws6 "a.py" []).strategies = [] ∧
    (deleteStrategyFlow ws6 "a.py" []).selectedPath = none ∧
    (deleteStrategyFlow ws6 "a.py" []).codeByStrategy.get "a.py" = none := by
  exact ⟨by decide, by decide, by decide, by decide⟩

/-- C6 (amended): after a delete of `path` whose registry reload returns
`files` (which no longer contain `path`), every cache bucket has no entry
under `path`; the favorites are pruned of `path` by the reconciliation pass
provided `files` is non-empty (with an empty reload they are left
unchanged); and when `path` was active the active id is reassigned during
the delete's own reload — to the first entry of `files`, or to null when
`files` is empty. -/
theorem delete_clears_buckets (s : Workspace) (path : String) (files : List Strategy)
    (hgone : ∀ f ∈ files, f.path ≠ path) :
    (deleteStrategyFlow s path files).codeByStrategy.get path = none ∧
    (deleteStrategyFlow s path files).backtestByStrategy.get path = none ∧
    (deleteStrategyFlow s path files).mlByStrategy.get path = none ∧
    (deleteStrategyFlow s path files).paperByStrategy.get path = none ∧
    (deleteStrategyFlow s path files).paramSpecsByStrategy.get path = none ∧
    (files ≠ [] → path ∉ (deleteStrategyFlow s path files).favorites) ∧
    (files = [] → (deleteStrategyFlow s path files).favorites = s.favorites) ∧
    (s.selectedPath = some path →
      (deleteStrategyFlow s path files).selectedPath
        = files.head?.map Strategy.path) := by
  cases files with
  | nil =>
    refine ⟨RecordMap.get_del_self _ _, RecordMap.get_del_self _ _,
      RecordMap.get_del_self _ _, RecordMap.get_del_self _ _,
      RecordMap.get_del_self _ _, ?_, ?_, ?_⟩
    · intro h
      exact absurd rfl h
    · intro _
      rfl
    · intro _
      rfl
  | cons f rest =>
    refine ⟨RecordMap.get_del_self _ _, RecordMap.get_del_self _ _,
      RecordMap.get_del_self _ _, RecordMap.get_del_self _ _,
      RecordMap.get_del_self _ _, ?_, ?_, ?_⟩
    · intro _ hmem
      have hfav : (deleteStrategyFlow s path (f :: rest)).favorites
          = s.favorites.filter (fun p => (f :: rest).any (fun st => st.path = p)) := rfl
      rw [hfav, List.mem_filter] at hmem
      obtain ⟨-, hany⟩ := hmem
      rw [List.any_eq_true] at hany
      obtain ⟨st, hst, heq⟩ := hany
      exact hgone st hst (by simpa using heq)
    · intro h
      exact absurd h (by simp)
    · intro hsel
      have hany : ((f :: rest).any (fun g => g.path = path)) = false := by
        rw [List.any_eq_false]
        intro g hg
        simpa using hgone g hg
      simp [deleteStrategyFlow, reloadStrategies, deleteStrategyCaches, hsel, hany]

/-- Witness for the amended C6 at a concrete workspace and reload result. -/
theorem delete_clears_buckets_witness :
    (deleteStrategyFlow ws6 "a.py" [⟨"b", "b.py", "t"⟩]).codeByStrategy.get "a.py"
      = none ∧
    "a.py" ∉ (deleteStrategyFlow ws6 "a.py" [⟨"b", "b.py", "t"⟩]).favorites ∧
    (deleteStrategyFlow ws6 "a.py" [⟨"b", "b.py", "t"⟩]).selectedPath
      = ([(⟨"b", "b.py", "t"⟩ : Strategy)].head?).map Strategy.path := by
  have h := delete_clears_buckets ws6 "a.py" [⟨"b", "b.py", "t"⟩] (by decide)
  exact ⟨h.1, h.2.2.2.2.2.1 (by decide), h.2.2.2.2.2.2.2 rfl⟩

/-- The refresh closure captured when the paper session of the C2 scenario
starts: session `s1`, selected strategy `a.py`. -/
def paperC0 : RefreshClosure := ⟨"s1", "a.py", none⟩

/-- The snapshot with which the stale refresh of the C2 scenario resolves. -/
def paperSnap : PaperStateResponse := ⟨"s1", ⟨"pr1", 42⟩⟩

/-- C2 scenario prefix: select `a.py`, open the paper view, start a session
(issuing the immediate refresh that stays in flight). -/
def paperTrace3 : List PaperSync.PaperEvent :=
  [.select "a.py", .setView .paper, .startPaperOk "s1"]

/-- The machine state while the session is active and one refresh is in
flight. -/
def sPaper3 : PaperSync := PaperSync.run paperTrace3

/-- The machine state after switching away to `b.py` (which has no paper
session): the synchronizer is deactivated, the refresh still in flight. -/
def sPaper4 : PaperSync := PaperSync.run (paperTrace3 ++ [.select "b.py"])

/-- C2 counterexample: with the synchronizer deactivated (no activation, the
visible paper state hydrated to `b.py`'s empty state), the refresh that was
in flight at switch time still applies on completion — the source's
`refreshPaperState` has no activeness check — overwriting the visible paper
state with the stale snapshot and writing the cache entry of `a.py`. -/
theorem stale_paper_refresh_applied :
    sPaper4.activation = none ∧
    sPaper4.paperState = none ∧
    paperC0 ∈ sPaper4.inflight ∧
    (sPaper4.step (.refreshOk paperC0 paperSnap)).paperState = some paperSnap ∧
    (sPaper4.step (.refreshOk paperC0 paperSnap)).paperByStrategy.get "a.py"
      = some ⟨"s1", "", some paperSnap⟩ := by
  exact ⟨by decide, by decide, by decide, by decide, by decide⟩

/-- C2 (amended): after the active strategy is switched away, the polling
stops — a timer tick with no installed activation issues no refresh call,
every tick with an installed activation issues a call only for that
activation's session id, and a switch to a strategy with no cached paper
session clears the activation and the session id; but a refresh in flight
at switch time is, on completion, applied unconditionally: its snapshot is
written to the visible paper state and into the cache under the strategy id
captured when the call was issued. -/
theorem paper_polling_stop_and_inflight_application :
    (∀ s : PaperSync, s.activation = none → s.step .timerFire = s) ∧
    (∀ (s : PaperSync) (c : RefreshClosure), s.activation = some c →
      (s.step .timerFire).callLog = s.callLog ++ [c.sessionId]) ∧
    (∀ (s : PaperSync) (p : String), s.selected ≠ some p →
      s.paperByStrategy.get p = none → s.paperSession ≠ "" →
      (s.step (.select p)).activation = none ∧
      (s.step (.select p)).paperSession = "") ∧
    (∀ (s : PaperSync) (c : RefreshClosure) (resp : PaperStateResponse),
      c ∈ s.inflight →
      (s.step (.refreshOk c resp)).paperState = some resp ∧
      (s.step (.refreshOk c resp)).paperError = "" ∧
      (s.step (.refreshOk c resp)).paperByStrategy.get c.selPath
        = some ⟨c.sessionId, "", some resp⟩) := by
  refine ⟨?_, ?_, ?_, ?_⟩
  · intro s h
    simp [PaperSync.step, h]
  · intro s c h
    simp [PaperSync.step, h]
  · intro s p hsel hcache hsession
    constructor
    · simp [PaperSync.step, hsel, hcache, Ne.symm hsession,
        PaperSync.applyEffect, PaperSync.effectFor]
    · simp [PaperSync.step, hsel, hcache, Ne.symm hsession,
        PaperSync.applyEffect, PaperSync.effectFor]
  · intro s c resp h
    refine ⟨?_, ?_, ?_⟩
    · simp [PaperSync.step, h]
    · simp [PaperSync.step, h]
    · simp [PaperSync.step, h, RecordMap.get_set_self]

theorem orElse_none_right {α : Type} (a : Option α) :
    (a.orElse fun _ => none) = a := by
  cases a <;> rfl

theorem orElse_assoc {α : Type} (a b c : Option α) :
    ((a.orElse fun _ => b).orElse fun _ => c)
      = a.orElse (fun _ => b.orElse fun _ => c) := by
  cases a <;> rfl

theorem codeSync_runFrom_append (s : CodeSync) (es1 es2 : List CodeEvent) :
    CodeSync.runFrom s (es1 ++ es2)
      = CodeSync.runFrom (CodeSync.runFrom s es1) es2 := by
  simp [CodeSync.runFrom, List.foldl_append]

theorem lastCommittedFrom_append (s : CodeSync) (es1 es2 : List CodeEvent) (x : String) :
    CodeSync.lastCommittedFrom s (es1 ++ es2) x
      = (CodeSync.lastCommittedFrom (CodeSync.runFrom s es1) es2 x).orElse
          (fun _ => CodeSync.lastCommittedFrom s es1 x) := by
  induction es1 generalizing s with
  | nil =>
    show CodeSync.lastCommittedFrom s es2 x
      = (CodeSync.lastCommittedFrom s es2 x).orElse (fun _ => none)
    exact (orElse_none_right _).symm
  | cons e rest ih =>
    show (CodeSync.lastCommittedFrom (s.step e) (rest ++ es2) x).orElse
        (fun _ => CodeSync.commitOf s e x) = _
    rw [ih (s.step e)]
    exact orElse_assoc _ _ _

/-- C4: for every finite sequence of selections, edits and fetch
completions, the code displayed immediately after reselecting `x` equals the
last value committed for `x` — by an edit made while `x` was selected or by
a fetch completion that was still active — regardless of what was viewed in
between. -/
theorem code_after_reselect (es : List CodeEvent) (x v : String)
    (h : CodeSync.lastCommitted (es ++ [.select x]) x = some v) :
    (CodeSync.run (es ++ [.select x])).code = v := by
  have h' : CodeSync.lastCommittedFrom CodeSync.init (es ++ [.select x]) x
      = some v := h
  have hcache := CodeSync.runFrom_cache_get CodeSync.init (es ++ [.select x]) x
  rw [h'] at hcache
  have hcache' : (CodeSync.run (es ++ [.select x])).cache.get x = some v := hcache
  have hsel : (CodeSync.run (es ++ [.select x])).selected = some x := by
    show (CodeSync.runFrom CodeSync.init (es ++ [.select x])).selected = some x
    rw [codeSync_runFrom_append]
    exact CodeSync.selected_after_select _ x
  exact (CodeSync.inv_run (es ++ [.select x])).2 x v hsel hcache'

/-- Event sequence of the spec's concrete scenario: fetch `a.py`, edit it to
`X=1`, view `b.py`. -/
def c4es : List CodeEvent :=
  [.select "a.py", .fetchResolve 1 "a.py" "orig", .edit "X=1", .select "b.py"]

/-- Witness for C4: reselecting `a.py` displays the last committed value,
the edit `X=1`, not the fetched text. -/
theorem code_after_reselect_witness :
    CodeSync.lastCommitted (c4es ++ [.select "a.py"]) "a.py" = some "X=1" ∧
    (CodeSync.run (c4es ++ [.select "a.py"])).code = "X=1" := by
  have h : CodeSync.lastCommitted (c4es ++ [.select "a.py"]) "a.py"
      = some "X=1" := by decide
  exact ⟨h, code_after_reselect c4es "a.py" "X=1" h⟩

/-- Trace for the C10 counterexample: select `a.py` (issuing a fetch), edit
before the fetch resolves, then let the still-active fetch resolve. -/
def c10tr : List CodeEvent :=
  [.select "a.py", .edit "X=1", .fetchResolve 1 "a.py" "orig"]

/-- C10 counterexample: the edit is written through to the cache
immediately, but the fetch that was pending when the edit was made resolves
while `a.py` is still selected and overwrites the edit in both the editor
and the cache; switching away and reselecting then redisplays the fetched
text, not the unsaved edit. -/
theorem pending_fetch_overwrites_edit :
    (CodeSync.run [.select "a.py", .edit "X=1"]).cache.get "a.py" = some "X=1" ∧
    (CodeSync.run c10tr).cache.get "a.py" = some "orig" ∧
    (CodeSync.run c10tr).code = "orig" ∧
    (CodeSync.run (c10tr ++ [.select "b.py", .select "a.py"])).code = "orig" ∧
    ("orig" : String) ≠ "X=1" := by
  exact ⟨by decide, by decide, by decide, by decide, by decide⟩

/-- C10 (amended): an edit made while `x` is selected is written through to
the code cache at once; and provided no later event commits a value for `x`
(in particular, any fetch for `x` still pending either resolves after the
selection changed — and is then discarded — or never resolves), the edit is
still displayed after any excursion to other strategies followed by a
reselect of `x`. -/
theorem edits_retained_when_no_later_commit (es1 es2 : List CodeEvent) (x t : String)
    (hsel : (CodeSync.run es1).selected = some x)
    (hquiet : CodeSync.lastCommittedFrom
        ((CodeSync.run es1).step (.edit t)) es2 x = none) :
    ((CodeSync.run es1).step (.edit t)).cache.get x = some t ∧
    ((CodeSync.run es1).step (.edit t)).code = t ∧
    (CodeSync.runFrom ((CodeSync.run es1).step (.edit t)) (es2 ++ [.select x])).code
      = t := by
  have hc1 : ((CodeSync.run es1).step (.edit t)).cache.get x = some t := by
    simp [CodeSync.step, hsel, RecordMap.get_set_self]
  have hcode1 : ((CodeSync.run es1).step (.edit t)).code = t := by
    simp [CodeSync.step, hsel]
  have hq2 : CodeSync.lastCommittedFrom ((CodeSync.run es1).step (.edit t))
      (es2 ++ [.select x]) x = none := by
    rw [lastCommittedFrom_append, hquiet, orElse_none_right]
    rfl
  have hcache2 : (CodeSync.runFrom ((CodeSync.run es1).step (.edit t))
      (es2 ++ [.select x])).cache.get x = some t := by
    rw [CodeSync.runFrom_cache_get, hq2]
    exact hc1
  have hsel2 : (CodeSync.runFrom ((CodeSync.run es1).step (.edit t))
      (es2 ++ [.select x])).selected = some x := by
    rw [codeSync_runFrom_append]
    exact CodeSync.selected_after_select _ x
  have hinv : CodeSync.Inv (CodeSync.runFrom ((CodeSync.run es1).step (.edit t))
      (es2 ++ [.select x])) :=
    CodeSync.inv_runFrom _ _ (CodeSync.inv_step _ _ (CodeSync.inv_run es1))
  exact ⟨hc1, hcode1, hinv.2 x t hsel2 hcache2⟩

/-- Witness for the amended C10: the fetch for `a.py` has already resolved
when the edit is made, so nothing later commits for `a.py`; the edit
survives the excursion to `b.py`. -/
theorem edits_retained_when_no_later_commit_witness :
    ((CodeSync.run [.select "a.py", .fetchResolve 1 "a.py" "orig"]).step
        (.edit "X=1")).cache.get "a.py" = some "X=1" ∧
    ((CodeSync.run [.select "a.py", .fetchResolve 1 "a.py" "orig"]).step
        (.edit "X=1")).code = "X=1" ∧
    (CodeSync.runFrom
        ((CodeSync.run [.select "a.py", .fetchResolve 1 "a.py" "orig"]).step
          (.edit "X=1"))
        ([.select "b.py"] ++ [.select "a.py"])).code = "X=1" :=
  edits_retained_when_no_later_commit
    [.select "a.py", .fetchResolve 1 "a.py" "orig"] [.select "b.py"]
    "a.py" "X=1" (by decide) (by decide)

/-- Witness for the amended C2 at the concrete scenario states. -/
theorem paper_polling_stop_and_inflight_application_witness :
    sPaper4.step .timerFire = sPaper4 ∧
    (sPaper3.step .timerFire).callLog = sPaper3.callLog ++ [paperC0.sessionId] ∧
    ((sPaper3.step (.select "b.py")).activation = none ∧
      (sPaper3.step (.select "b.py")).paperSession = "") ∧
    ((sPaper4.step (.refreshOk paperC0 paperSnap)).paperState = some paperSnap ∧
      (sPaper4.step (.refreshOk paperC0 paperSnap)).paperError = "" ∧
      (sPaper4.step (.refreshOk paperC0 paperSnap)).paperByStrategy.get
          paperC0.selPath
        = some ⟨paperC0.sessionId, "", some paperSnap⟩) := by
  have h := paper_polling_stop_and_inflight_application
  exact ⟨h.1 sPaper4 (by decide), h.2.1 sPaper3 paperC0 (by decide),
    h.2.2.1 sPaper3 "b.py" (by decide) (by decide) (by decide),
    h.2.2.2 sPaper4 paperC0 paperSnap (by decide)⟩

theorem tune_callLog_select (s : TuneSys) (p : String) :
    (TuneSys.step s (.select p)).callLog = s.callLog := by
  by_cases h : s.w.selectedPath = some p <;> simp [TuneSys.step, h]

theorem tune_callLog_optErr (s : TuneSys) (m : String) :
    (TuneSys.step s (.optErr m)).callLog = s.callLog := by
  cases hf : s.flow with
  | none => simp [TuneSys.step, hf]
  | some f =>
    cases hst : f.stage with
    | awaitingOpt => simp [TuneSys.step, hf, hst]
    | awaitingBt rt bp => simp [TuneSys.step, hf, hst]

theorem tune_callLog_btOk (s : TuneSys) (r : BacktestResult) :
    (TuneSys.step s (.btOk r)).callLog = s.callLog := by
  cases hf : s.flow with
  | none => simp [TuneSys.step, hf]
  | some f =>
    cases hst : f.stage with
    | awaitingOpt => simp [TuneSys.step, hf, hst]
    | awaitingBt rt bp => simp [TuneSys.step, hf, hst]

theorem tune_callLog_btErr (s : TuneSys) (m : String) :
    (TuneSys.step s (.btErr m)).callLog = s.callLog := by
  cases hf : s.flow with
  | none => simp [TuneSys.step, hf]
  | some f =>
    cases hst : f.stage with
    | awaitingOpt => simp [TuneSys.step, hf, hst]
    | awaitingBt rt bp => simp [TuneSys.step, hf, hst]

/-- C5: the tuning flow issues the best-params backtest call only at the
event that delivers the first (optimize) call's response, for a flow that
was awaiting that response; starting a run captures the id that is selected
at initiation into the flow; and the finished result is committed to the
tuning cache entry of that captured origin id, with every other id's entry
— in particular the currently selected one when the user has switched —
left unchanged. -/
theorem tuning_second_call_and_origin_commit :
    (∀ (s : TuneSys) (e : TuneEvent) (o : String) (bp : RecordMap Int),
      (TuneSys.step s e).callLog = s.callLog ++ [TuneCall.backtest o bp] →
      ∃ bv f, e = .optOk bv bp ∧ s.flow = some f ∧
        f.stage = .awaitingOpt ∧ o = f.origin) ∧
    (∀ (s : TuneSys) (sel : String), s.w.selectedPath = some sel →
      s.w.mlRanges ≠ [] →
      (TuneSys.step s .initiate).flow
        = some ⟨sel, s.w.mlRanges, s.w.optuna, s.w.mlBestResult, .awaitingOpt⟩ ∧
      (TuneSys.step s .initiate).callLog
        = s.callLog ++ [.optimize sel s.w.mlRanges]) ∧
    (∀ (s : TuneSys) (f : TuneFlow) (rt : String) (bp : RecordMap Int)
        (r : BacktestResult),
      s.flow = some f → f.stage = .awaitingBt rt bp →
      (TuneSys.step s (.btOk r)).w.mlByStrategy.get f.origin
        = some ⟨rt, some r, "", f.ranges⟩ ∧
      (∀ y, y ≠ f.origin →
        (TuneSys.step s (.btOk r)).w.mlByStrategy.get y
          = s.w.mlByStrategy.get y)) := by
  refine ⟨?_, ?_, ?_⟩
  · intro s e o bp h
    cases e with
    | select p =>
      rw [tune_callLog_select] at h
      simp at h
    | save params =>
      rw [show (TuneSys.step s (.save params)).callLog = s.callLog from rfl] at h
      simp at h
    | initiate =>
      exfalso
      cases hsel : s.w.selectedPath with
      | none =>
        rw [show (TuneSys.step s .initiate).callLog = s.callLog from by
          simp [TuneSys.step, hsel]] at h
        simp at h
      | some sel =>
        by_cases he : s.w.mlRanges.isEmpty
        · rw [show (TuneSys.step s .initiate).callLog = s.callLog from by
            simp [TuneSys.step, hsel, he]] at h
          simp at h
        · rw [show (TuneSys.step s .initiate).callLog
              = s.callLog ++ [.optimize sel s.w.mlRanges] from by
            simp [TuneSys.step, hsel, he]] at h
          simp at h
    | optOk bv bp' =>
      cases hf : s.flow with
      | none =>
        rw [show (TuneSys.step s (.optOk bv bp')).callLog = s.callLog from by
          simp [TuneSys.step, hf]] at h
        simp at h
      | some f =>
        cases hst : f.stage with
        | awaitingBt rt bps =>
          rw [show (TuneSys.step s (.optOk bv bp')).callLog = s.callLog from by
            simp [TuneSys.step, hf, hst]] at h
          simp at h
        | awaitingOpt =>
          rw [show (TuneSys.step s (.optOk bv bp')).callLog
              = s.callLog ++ [.backtest f.origin bp'] from by
            simp [TuneSys.step, hf, hst]] at h
          have h2 : f.origin = o ∧ bp' = bp := by simpa using h
          obtain ⟨ho, hbp⟩ := h2
          subst ho
          subst hbp
          exact ⟨bv, f, rfl, rfl, hst, rfl⟩
    | optErr m =>
      rw [tune_callLog_optErr] at h
      simp at h
    | btOk r =>
      rw [tune_callLog_btOk] at h
      simp at h
    | btErr m =>
      rw [tune_callLog_btErr] at h
      simp at h
  · intro s sel hsel hne
    have he : s.w.mlRanges.isEmpty = false := by
      cases hm : s.w.mlRanges with
      | nil => exact absurd hm hne
      | cons a l => rfl
    constructor <;> simp [TuneSys.step, hsel, he]
  · intro s f rt bp r hf hst
    constructor
    · simp [TuneSys.step, hf, hst, RecordMap.get_set_self]
    · intro y hy
      simp [TuneSys.step, hf, hst, RecordMap.get_set_ne _ hy]

/-- The param spec used in the concrete tuning scenarios. -/
def tuneSpec : StrategyParamSpec := ⟨"fast", "int", 10, 5, 40⟩

/-- The best-params backtest result of the concrete tuning scenario. -/
def tuneRun : BacktestResult := ⟨"bt1", 9⟩

/-- Tuning machine state after selecting `a.py` and saving it (ranges reset
from the fetched spec). -/
def sTune2 : TuneSys := TuneSys.run [.select "a.py", .save [tuneSpec]]

/-- Tuning machine state after also starting a run for `a.py` and then
switching the selection to `b.py` while the optimize call is in flight. -/
def sTune4 : TuneSys :=
  TuneSys.run [.select "a.py", .save [tuneSpec], .initiate, .select "b.py"]

/-- State after the optimize response arrives (with `b.py` selected): the
dependent backtest call has been issued for the origin `a.py`. -/
def sTune5 : TuneSys := sTune4.step (.optOk 5 [("fast", 7)])

/-- Witness for C5 at the spec's concrete scenario: the run is initiated on
`a.py`, the user switches to `b.py`, and the finished result lands in
`a.py`'s tuning entry while `b.py`'s stays untouched. -/
theorem tuning_second_call_and_origin_commit_witness :
    ((TuneSys.step sTune2 .initiate).flow
      = some ⟨"a.py", sTune2.w.mlRanges, sTune2.w.optuna, sTune2.w.mlBestResult,
          .awaitingOpt⟩ ∧
     (TuneSys.step sTune2 .initiate).callLog
      = sTune2.callLog ++ [.optimize "a.py" sTune2.w.mlRanges]) ∧
    (∃ bv f, (TuneEvent.optOk 5 [("fast", 7)]) = .optOk bv [("fast", 7)] ∧
      sTune4.flow = some f ∧ f.stage = .awaitingOpt ∧ "a.py" = f.origin) ∧
    ((TuneSys.step sTune5 (.btOk tuneRun)).w.mlByStrategy.get "a.py"
      = some ⟨renderResult 5 [("fast", 7)], some tuneRun, "",
          defaultRanges [tuneSpec]⟩ ∧
     (TuneSys.step sTune5 (.btOk tuneRun)).w.mlByStrategy.get "b.py"
      = sTune5.w.mlByStrategy.get "b.py") := by
  have h := tuning_second_call_and_origin_commit
  refine ⟨h.2.1 sTune2 "a.py" (by decide) (by decide), ?_, ?_⟩
  · exact h.1 sTune4 (.optOk 5 [("fast", 7)]) "a.py" [("fast", 7)] (by decide)
  · have h3 := h.2.2 sTune5
      ⟨"a.py", defaultRanges [tuneSpec], "", none,
        .awaitingBt (renderResult 5 [("fast", 7)]) [("fast", 7)]⟩
      (renderResult 5 [("fast", 7)]) [("fast", 7)] tuneRun (by decide) rfl
    exact ⟨h3.1, h3.2 "b.py" (by decide)⟩

/-- Trace that desynchronizes the visible tuning text from the cache entry:
a finished run for `a.py` (entry and display both show the result), then a
save that resets the entry but not the displayed text, the strategy now
declaring no params. -/
def sTuneC8 : TuneSys :=
  TuneSys.run [.select "a.py", .save [tuneSpec], .initiate,
    .optOk 5 [("fast", 7)], .btOk tuneRun, .save []]

/-- C8 counterexample: a tuning run with empty ranges issues no call and
records the error, but writes the *displayed* result text and best run into
the entry; right after a save has reset the entry while the display still
shows the old result, the entry's previous `resultText` (empty) and
`bestRun` (absent) are not left in place — they are overwritten with the
stale displayed values. -/
theorem empty_ranges_error_overwrites_entry :
    sTuneC8.w.mlByStrategy.get "a.py" = some ⟨"", none, "", []⟩ ∧
    sTuneC8.w.mlRanges = [] ∧
    (TuneSys.step sTuneC8 .initiate).callLog = sTuneC8.callLog ∧
    (TuneSys.step sTuneC8 .initiate).w.mlByStrategy.get "a.py"
      = some ⟨renderResult 5 [("fast", 7)], some tuneRun, emptyRangesMsg, []⟩ ∧
    renderResult 5 [("fast", 7)] ≠ "" := by
  exact ⟨by decide, by decide, by decide, by decide, by decide⟩

/-- C8 (amended): a tuning run requested with an empty ranges map performs
no network call, starts no flow, and records the local error string on the
active strategy's tuning entry in the same shape a transport failure uses
(displayed result text, displayed best run, error, displayed ranges),
leaving every other entry unchanged; the entry's previous `resultText` and
`bestRun` are preserved exactly when the displayed values are in sync with
the entry (as after an undisturbed hydration). -/
theorem empty_ranges_tuning_local_error (s : TuneSys) (sel : String)
    (hsel : s.w.selectedPath = some sel) (hempty : s.w.mlRanges = []) :
    (TuneSys.step s .initiate).callLog = s.callLog ∧
    (TuneSys.step s .initiate).flow = s.flow ∧
    (TuneSys.step s .initiate).w.mlError = emptyRangesMsg ∧
    (TuneSys.step s .initiate).w.mlByStrategy.get sel
      = some ⟨s.w.optuna, s.w.mlBestResult, emptyRangesMsg, s.w.mlRanges⟩ ∧
    (∀ y, y ≠ sel →
      (TuneSys.step s .initiate).w.mlByStrategy.get y = s.w.mlByStrategy.get y) ∧
    (∀ ent, s.w.mlByStrategy.get sel = some ent →
      ent.resultText = s.w.optuna → ent.bestRun = s.w.mlBestResult →
      (TuneSys.step s .initiate).w.mlByStrategy.get sel
        = some ⟨ent.resultText, ent.bestRun, emptyRangesMsg, s.w.mlRanges⟩) := by
  refine ⟨?_, ?_, ?_, ?_, ?_, ?_⟩
  · simp [TuneSys.step, hsel, hempty]
  · simp [TuneSys.step, hsel, hempty]
  · simp [TuneSys.step, hsel, hempty]
  · simp [TuneSys.step, hsel, hempty, RecordMap.get_set_self]
  · intro y hy
    simp [TuneSys.step, hsel, hempty, RecordMap.get_set_ne _ hy]
  · intro ent hent h1 h2
    rw [h1, h2]
    simp [TuneSys.step, hsel, hempty, RecordMap.get_set_self]

/-- Tuning machine state whose displayed values are in sync with the cached
entry: hydrated `a.py` saved with no declared params. -/
def sTuneC8w : TuneSys := TuneSys.run [.select "a.py", .save []]

/-- Witness for the amended C8 at a synchronized concrete state. -/
theorem empty_ranges_tuning_local_error_witness :
    (TuneSys.step sTuneC8w .initiate).callLog = sTuneC8w.callLog ∧
    (TuneSys.step sTuneC8w .initiate).w.mlError = emptyRangesMsg ∧
    (TuneSys.step sTuneC8w .initiate).w.mlByStrategy.get "a.py"
      = some ⟨(⟨"", none, "", []⟩ : MlSessionCache).resultText,
          (⟨"", none, "", []⟩ : MlSessionCache).bestRun, emptyRangesMsg,
          sTuneC8w.w.mlRanges⟩ := by
  have h := empty_ranges_tuning_local_error sTuneC8w "a.py" (by decide) (by decide)
  exact ⟨h.1, h.2.2.1, h.2.2.2.2.2 ⟨"", none, "", []⟩ (by decide) rfl rfl⟩

/-- C9 (amended): tuning-run and paper-refresh failures are caught and
converted to cache-entry and error-string state; rename and delete failures
are caught by the sidebar and surfaced as alert dialogs, touching no state;
but save, backtest-run and local-broker paper-start failures escape their
operation uncaught (their triggers attach no handler), becoming unhandled
rejections — only the Alpaca paper-start button attaches a catch that
converts the failure to the paper error string. -/
theorem error_propagation_policy :
    (∀ (s : Workspace) (sel m : String) (pf : Outcome (List StrategyParamSpec)),
      s.selectedPath = some sel → (saveStrategyOp s (.err m) pf).2 = some m) ∧
    (∀ (s : Workspace) (sel m : String),
      s.selectedPath = some sel → (runBacktestOp s (.err m)).2 = some m) ∧
    (∀ (s : Workspace) (sel m : String),
      s.selectedPath = some sel → (startPaperOp s (.err m)).2 = some m) ∧
    (∀ (s : Workspace) (sel m : String),
      s.selectedPath = some sel →
      startPaperAlpacaHandler s (.err m)
        = ({ s with paperError := m, paperState := none }, none)) ∧
    (∀ (s : TuneSys) (f : TuneFlow) (m : String),
      s.flow = some f → f.stage = .awaitingOpt →
      (TuneSys.step s (.optErr m)).w.mlError = m ∧
      (TuneSys.step s (.optErr m)).w.mlByStrategy.get f.origin
        = some ⟨f.capturedOptuna, f.capturedBest, m, f.ranges⟩) ∧
    (∀ (s : PaperSync) (c : RefreshClosure) (m : String),
      c ∈ s.inflight →
      (PaperSync.step s (.refreshErr c m)).paperError = m ∧
      (PaperSync.step s (.refreshErr c m)).paperByStrategy.get c.selPath
        = some ⟨c.sessionId, m, c.capturedState⟩) ∧
    (∀ (s : Workspace) (o n m : String),
      renameStrategyHandler s o n (.err m) = (s, some m)) ∧
    (∀ (s : Workspace) (p : String) (files : List Strategy) (m : String),
      deleteStrategyHandler s p files (.err m) = (s, some m)) := by
  refine ⟨?_, ?_, ?_, ?_, ?_, ?_, ?_, ?_⟩
  · intro s sel m pf hsel
    simp [saveStrategyOp, hsel]
  · intro s sel m hsel
    simp [runBacktestOp, hsel]
  · intro s sel m hsel
    simp [startPaperOp, hsel]
  · intro s sel m hsel
    simp [startPaperAlpacaHandler, startPaperOp, hsel]
  · intro s f m hf hst
    constructor
    · simp [TuneSys.step, hf, hst]
    · simp [TuneSys.step, hf, hst, RecordMap.get_set_self]
  · intro s c m h
    constructor
    · simp [PaperSync.step, h]
    · simp [PaperSync.step, h, RecordMap.get_set_self]
  · intro s o n m
    rfl
  · intro s p files m
    rfl

/-- Concrete workspace for the C9 counterexample and witness. -/
def ws9 : Workspace := { Workspace.empty with selectedPath := some "a.py" }

/-- Tuning machine state with an optimize call in flight for `a.py`. -/
def sTune3 : TuneSys := TuneSys.run [.select "a.py", .save [tuneSpec], .initiate]

/-- C9 counterexample: a failing save POST, a failing backtest POST and a
failing local paper start each escape their operation as an uncaught
rejection (second component non-null) — contradicting the claim that every
remote-call failure is caught at the point of the call. -/
theorem save_backtest_paper_failures_escape :
    (saveStrategyOp ws9 (.err "POST /strategies failed (500)") (.ok [])).2
      = some "POST /strategies failed (500)" ∧
    (runBacktestOp ws9 (.err "POST /backtests/run failed (500)")).2
      = some "POST /backtests/run failed (500)" ∧
    (startPaperOp ws9 (.err "POST /paper/start failed (500)")).2
      = some "POST /paper/start failed (500)" := by
  exact ⟨rfl, rfl, rfl⟩

/-- Witness for the amended C9 at concrete states and failure messages. -/
theorem error_propagation_policy_witness :
    (saveStrategyOp ws9 (.err "boom") (.ok [])).2 = some "boom" ∧
    (runBacktestOp ws9 (.err "boom")).2 = some "boom" ∧
    (startPaperOp ws9 (.err "boom")).2 = some "boom" ∧
    startPaperAlpacaHandler ws9 (.err "boom")
      = ({ ws9 with paperError := "boom", paperState := none }, none) ∧
    (TuneSys.step sTune3 (.optErr "boom")).w.mlError = "boom" ∧
    (PaperSync.step sPaper3 (.refreshErr paperC0 "boom")).paperError = "boom" ∧
    renameStrategyHandler ws9 "a.py" "alpha.py" (.err "boom") = (ws9, some "boom") ∧
    deleteStrategyHandler ws9 "a.py" [] (.err "boom") = (ws9, some "boom") := by
  have h := error_propagation_policy
  refine ⟨h.1 ws9 "a.py" "boom" (.ok []) rfl, h.2.1 ws9 "a.py" "boom" rfl,
    h.2.2.1 ws9 "a.py" "boom" rfl, h.2.2.2.1 ws9 "a.py" "boom" rfl, ?_, ?_,
    h.2.2.2.2.2.2.1 ws9 "a.py" "alpha.py" "boom",
    h.2.2.2.2.2.2.2 ws9 "a.py" [] "boom"⟩
  · exact (h.2.2.2.2.1 sTune3
      ⟨"a.py", defaultRanges [tuneSpec], "", none, .awaitingOpt⟩ "boom"
      (by decide) rfl).1
  · exact (h.2.2.2.2.2.1 sPaper3 paperC0 "boom" (by decide)).1

end Trading
